import Mathlib

/-!
Verification of the Block Blast engine (`src/game.js`).

The game state engine is shallowly embedded as follows.

* The grid is always an 8×8 array of cells (`initGrid` creates it and no
  operation ever resizes its rows), so it is modelled as a total function
  `Fin 8 → Fin 8 → Cell`.  A cell holds `0` (empty, falsy) or one of the
  five non-empty colour strings from `COLORS` (truthy); a cell is modelled
  as `Option (Fin 5)`, the `Fin 5` being the index into `COLORS`.
* JavaScript reads of `grid[i]` at an index outside `0..7` yield
  `undefined`; a subsequent property access on that `undefined` throws a
  `TypeError`.  Reads are therefore modelled by `jsRow`/`jsCell` returning
  `Option`, and functions that can throw return `Option` results, `none`
  meaning a thrown exception.
* JavaScript assignment `grid[i][j] = v` at a column index outside `0..7`
  stores a non-index property and leaves the 64 cells unchanged; `setCell`
  therefore only updates in-range positions.  (An out-of-range *row* index
  would throw, but `placeBlock` is only ever invoked after `canPlace`
  succeeded, which forces every written row index into range.)
* `Math.random()` draws are passed in explicitly as rational numbers in
  `[0,1)`; the stream of `randomShape()` results consumed by the refill
  loop of `tryPlaceBlock` is abstracted as an oracle `draws : Nat → Block`.
* The DOM / rendering / localStorage calls (`render`, `updateScores`,
  `showGameOver`, the star-blast animations) read, but never write, the
  engine fields modelled here, so they are omitted.
-/

abbrev Cell := Option (Fin 5)

abbrev Grid := Fin 8 → Fin 8 → Cell

/-- A shape, exactly as in the source: an array of rows of 0/1 entries. -/
abbrev Shape := List (List Nat)

/-- The fixed catalog of 23 shapes (`SHAPES`, game.js lines 12-36). -/
def SHAPES : List Shape :=
  [ [[1]],                                    -- 1x1
    [[1, 1]],                                 -- 1x2
    [[1], [1]],                               -- 2x1
    [[1, 1], [1, 1]],                         -- 2x2
    [[1, 1, 1]],                              -- 1x3
    [[1], [1], [1]],                          -- 3x1
    [[1, 1, 1, 1]],                           -- 1x4
    [[1], [1], [1], [1]],                     -- 4x1
    [[1, 1, 1], [1, 0, 0]],                   -- L
    [[1, 1, 1], [0, 0, 1]],                   -- J
    [[1, 0, 0], [1, 1, 1]],                   -- L mirrored
    [[0, 0, 1], [1, 1, 1]],                   -- J mirrored
    [[1, 1], [1, 0]],                         -- small L
    [[1, 1], [0, 1]],                         -- small J
    [[0, 1], [1, 1]],                         -- small L other
    [[1, 0], [1, 1]],                         -- small J other
    [[1, 1, 1], [0, 1, 0]],                   -- T
    [[0, 1, 0], [1, 1, 1]],                   -- T down
    [[1, 0], [1, 1], [1, 0]],                 -- T left
    [[0, 1], [1, 1], [0, 1]],                 -- T right
    [[1, 1, 1], [1, 1, 1]],                   -- 3x2
    [[1, 1], [1, 1], [1, 1]],                 -- 2x3
    [[1, 1, 1], [1, 1, 1], [1, 1, 1]] ]       -- 3x3

/-- Indices of "larger" shapes (game.js line 39). -/
def LARGE_SHAPE_INDICES : List Nat := [6, 7, 8, 9, 10, 11, 16, 17, 18, 19, 20, 21, 22]

/-- The colour palette (game.js line 41); blocks store an index into it. -/
def COLORS : List String := ["c1", "c2", "c3", "c4", "c5"]

/-- Number of occupied cells of a shape (used to state the "large" property). -/
def cellCount (shape : Shape) : Nat :=
  (shape.map (fun row => row.countP (fun x => x != 0))).sum

/-- Height of a shape: `shape.length`. -/
def shapeH (shape : Shape) : Nat := shape.length

/-- Width of a shape: `shape[0].length` (0 if the shape is empty). -/
def shapeW (shape : Shape) : Nat := (shape.head?.getD []).length

/-- The shape's entry at row `r`, column `c`: truthiness of `shape[r][c]`.
Out-of-range reads give `undefined`, which is falsy, hence the defaults. -/
def shapeCell (shape : Shape) (r c : Nat) : Bool :=
  (((shape.get? r).getD []).get? c).getD 0 != 0

/-- The (r, c) offsets enumerated by the nested `for` loops of
`canPlace`/`placeBlock`: row-major over the H×W bounding box. -/
def shapePairs (shape : Shape) : List (Nat × Nat) :=
  (List.range (shapeH shape)).flatMap fun r =>
    (List.range (shapeW shape)).map fun c => (r, c)

/-- JavaScript read `grid[i]`: `some` row for `i ∈ 0..7`, else `undefined`. -/
def jsRow (g : Grid) (i : Int) : Option (Fin 8 → Cell) :=
  if h : 0 ≤ i ∧ i < 8 then some (g ⟨i.toNat, by omega⟩) else none

/-- JavaScript read `row[j]`: `some` cell for `j ∈ 0..7`, else `undefined`. -/
def jsCell (row : Fin 8 → Cell) (j : Int) : Option Cell :=
  if h : 0 ≤ j ∧ j < 8 then some (row ⟨j.toNat, by omega⟩) else none

/-- Truthiness of the expression `state.grid[i][j]` when it does not throw:
`true` iff both indices are in range and the cell is occupied. -/
def occupiedAt (g : Grid) (i j : Int) : Bool :=
  match jsRow g i with
  | none => false
  | some row =>
    match jsCell row j with
    | none => false
    | some cell => cell.isSome

/-- The scan of `canPlace`'s nested loops over the given offsets, in order.
`none` models the `TypeError` thrown when an occupied shape cell leads to
`state.grid[row+r][col+c]` with `row+r` outside `0..7` (`grid[row+r]` is
`undefined` and indexing it throws); a column index outside `0..7` merely
reads `undefined`, which is falsy, so the scan continues. -/
def canPlaceAux (shape : Shape) (row col : Int) (g : Grid) :
    List (Nat × Nat) → Option Bool
  | [] => some true
  | p :: rest =>
    if shapeCell shape p.1 p.2 then
      match jsRow g (row + p.1) with
      | none => none
      | some gr =>
        match jsCell gr (col + p.2) with
        | none => canPlaceAux shape row col g rest
        | some cell =>
          if cell.isSome then some false else canPlaceAux shape row col g rest
    else canPlaceAux shape row col g rest

/-- `canPlace(shape, color, row, col)` (game.js lines 98-108).  The `color`
argument is unused by the source and omitted here.  `none` models a thrown
`TypeError` (reading `shape[0].length` of an empty shape, or an occupied
cell mapped to a row index outside the grid). -/
def canPlace (shape : Shape) (row col : Int) (g : Grid) : Option Bool :=
  match shape.head? with
  | none => none
  | some r0 =>
    if 8 < row + (shape.length : Int) ∨ 8 < col + (r0.length : Int) then some false
    else canPlaceAux shape row col g (shapePairs shape)

/-- JavaScript assignment `g[i][j] := v` restricted to the 64 real cells:
an out-of-range column index stores a non-index property (no cell changes),
and `placeBlock` is only reached with in-range row indices. -/
def setCell (g : Grid) (i j : Int) (v : Cell) : Grid :=
  fun a b => if (a.val : Int) = i ∧ (b.val : Int) = j then v else g a b

/-- `placeBlock(shape, color, row, col)` (game.js lines 110-118): stamp the
occupied cells of the shape into the grid. -/
def placeBlock (shape : Shape) (color : Fin 5) (row col : Int) (g : Grid) : Grid :=
  (shapePairs shape).foldl
    (fun acc p =>
      if shapeCell shape p.1 p.2 then setCell acc (row + p.1) (col + p.2) (some color)
      else acc) g

/-- A block instance: a shape paired with its colour (index into `COLORS`). -/
structure Block where
  shape : Shape
  color : Fin 5
deriving DecidableEq

/-- The engine fields of the mutable session object `state` (game.js lines
43-53).  The UI-only fields `selectedBlockIndex`/`draggingBlockIndex` are
presentation state and are omitted. -/
structure GameState where
  grid : Grid
  currentBlocks : List Block
  score : Nat
  combo : Nat
  streak : Nat
  lastMoveCleared : Bool
  gameOver : Bool

/-- `state.grid[r].every(cell => cell !== 0)` for row `r`. -/
def rowFull (g : Grid) (r : Fin 8) : Bool :=
  (List.finRange 8).all fun c => (g r c).isSome

/-- The per-column fullness scan of `clearLines` (game.js lines 126-132). -/
def colFull (g : Grid) (c : Fin 8) : Bool :=
  (List.finRange 8).all fun r => (g r c).isSome

/-- `for (let c = 0; c < COLS; c++) state.grid[r][c] = 0`. -/
def clearRow (g : Grid) (r : Fin 8) : Grid :=
  fun i j => if i = r then none else g i j

/-- `for (let r = 0; r < ROWS; r++) state.grid[r][c] = 0`. -/
def clearCol (g : Grid) (c : Fin 8) : Grid :=
  fun i j => if j = c then none else g i j

/-- Total number of full lines on a grid: what `clearLines` computes as
`rowsToClear.length + colsToClear.length`. -/
def countFull (g : Grid) : Nat :=
  ((List.finRange 8).filter (fun r => rowFull g r)).length +
    ((List.finRange 8).filter (fun c => colFull g c)).length

/-- The value `{ count, rows, cols }` returned by `clearLines`. -/
structure ClearResult where
  count : Nat
  rows : List (Fin 8)
  cols : List (Fin 8)
deriving DecidableEq

/-- `clearLines()` (game.js lines 120-152): detect every full row and full
column of the current grid, then (if any) clear them all and apply the
scoring, combo and streak updates.  Returns the updated state together
with the `{ count, rows, cols }` result object. -/
def clearLines (s : GameState) : GameState × ClearResult :=
  let rowsToClear := (List.finRange 8).filter (fun r => rowFull s.grid r)
  let colsToClear := (List.finRange 8).filter (fun c => colFull s.grid c)
  let count := rowsToClear.length + colsToClear.length
  if count = 0 then (s, ⟨0, [], []⟩)
  else
    let g1 := rowsToClear.foldl clearRow s.grid
    let g2 := colsToClear.foldl clearCol g1
    let points := count * 10 + 2 ^ count +
      (if 0 < s.streak then s.streak * 20 else 0)
    ({ s with grid := g2, score := s.score + points, combo := count,
              lastMoveCleared := true, streak := s.streak + 1 },
     ⟨count, rowsToClear, colsToClear⟩)

/-- `noClearThisMove()` (game.js lines 154-158). -/
def noClearThisMove (s : GameState) : GameState :=
  { s with lastMoveCleared := false, streak := 0, combo := 0 }

/-- Anchor offsets scanned by `canPlaceAny`: `0 ≤ r ≤ 8−H`, `0 ≤ c ≤ 8−W`
(row-major, exactly the two nested loops; empty when the shape is taller or
wider than the board). -/
def anchorList (H W : Nat) : List (Nat × Nat) :=
  (List.range (9 - H)).flatMap fun r => (List.range (9 - W)).map fun c => (r, c)

/-- The anchor scan of `canPlaceAny` for one block: stop at the first fit.
A thrown `TypeError` inside `canPlace` propagates as `none`. -/
def tryAnchors (shape : Shape) (g : Grid) : List (Nat × Nat) → Option Bool
  | [] => some false
  | a :: rest =>
    match canPlace shape a.1 a.2 g with
    | none => none
    | some true => some true
    | some false => tryAnchors shape g rest

/-- `canPlaceAny(blocks)` (game.js lines 160-170): some block of the given
set fits somewhere on the grid.  Reading `shape[0].length` of an empty
shape would throw (`none`). -/
def canPlaceAny (blocks : List Block) (g : Grid) : Option Bool :=
  match blocks with
  | [] => some false
  | b :: rest =>
    match b.shape.head? with
    | none => none
    | some r0 =>
      match tryAnchors b.shape g (anchorList b.shape.length r0.length) with
      | none => none
      | some true => some true
      | some false => canPlaceAny rest g

/-- The state after `placeBlock(...)` and `state.score += 5`
(game.js lines 177-178). -/
def postPlaceState (s : GameState) (blk : Block) (row col : Int) : GameState :=
  { s with grid := placeBlock blk.shape blk.color row col s.grid,
           score := s.score + 5 }

/-- Lines 179-180 of game.js: run `clearLines()`, and if it cleared
nothing, apply `noClearThisMove()`. -/
def afterClear (s1 : GameState) : GameState :=
  if (clearLines s1).2.count = 0 then noClearThisMove (clearLines s1).1
  else (clearLines s1).1

/-- Lines 182-183 of game.js: `splice(blockIndex, 1)` then push freshly
generated blocks while fewer than 3 remain.  The successive results of the
`randomShape()` calls are abstracted as the oracle `draws`. -/
def refillBlocks (blocks : List Block) (i : Nat) (draws : Nat → Block) : List Block :=
  let b1 := blocks.eraseIdx i
  b1 ++ (List.range (3 - b1.length)).map draws

/-- `tryPlaceBlock(blockIndex, row, col)` (game.js lines 172-201), the
atomic move operation.  Result `none` models a thrown exception;
`some (accepted, s')` gives the returned boolean and the state after the
move.  The DOM effects (star blasts, `render`, `updateScores`,
`showGameOver`) do not touch the fields modelled here. -/
def tryPlaceBlock (s : GameState) (draws : Nat → Block) (blockIndex row col : Int) :
    Option (Bool × GameState) :=
  if s.gameOver = true ∨ blockIndex < 0 ∨ (s.currentBlocks.length : Int) ≤ blockIndex then
    some (false, s)
  else
    match s.currentBlocks.get? blockIndex.toNat with
    | none => none   -- unreachable: the index guard above ensures a block exists
    | some block =>
      match canPlace block.shape row col s.grid with
      | none => none
      | some false => some (false, s)
      | some true =>
        match canPlaceAny
            (refillBlocks (afterClear (postPlaceState s block row col)).currentBlocks
              blockIndex.toNat draws)
            (afterClear (postPlaceState s block row col)).grid with
        | none => none
        | some canAny =>
          some (true,
            { afterClear (postPlaceState s block row col) with
              currentBlocks :=
                refillBlocks (afterClear (postPlaceState s block row col)).currentBlocks
                  blockIndex.toNat draws,
              gameOver :=
                if canAny then (afterClear (postPlaceState s block row col)).gameOver
                else true })

/-- `level` in `randomShape()` (game.js line 84): `Math.floor(score/250)`. -/
def level (score : Nat) : Nat := score / 250

/-- `largeChance` in `randomShape()` (game.js line 85): `level * 0.08`.
The double literal `0.08` is modelled as the rational `2/25`; the claims
proved below depend only on it being zero at level 0 and positive above. -/
def largeChance (score : Nat) : ℚ := (level score : ℚ) * (2 / 25)

/-- `useLargePool` (game.js line 86): `largeChance > 0 && rPool < largeChance`,
where `rPool` is the `Math.random()` draw (only consumed when the first
conjunct holds, which passing it as a parameter models faithfully). -/
def useLargePool (score : Nat) (rPool : ℚ) : Bool :=
  decide (0 < largeChance score) && decide (rPool < largeChance score)

/-- `l[Math.floor(r * l.length)]`: `none` models the `undefined` that an
out-of-range floor index produces (the source then throws on using it). -/
def jsFloorIndex {α : Type} (l : List α) (r : ℚ) : Option α :=
  let f := (r * (l.length : ℚ)).floor
  if h : 0 ≤ f ∧ f < (l.length : Int) then some (l.get ⟨f.toNat, by omega⟩) else none

/-- `randomShape()` (game.js lines 82-92), with the three potential
`Math.random()` draws passed explicitly: `rPool` decides the large-pool
test, `rIdx` picks the shape index from the chosen pool, `rColor` picks
the colour index (`COLORS[Math.floor(rColor*5)]`).  The returned shape is
a fresh copy in the source (`map(row => [...row])`), which is the identity
on the modelled value. -/
def randomShape (score : Nat) (rPool rIdx rColor : ℚ) : Option Block :=
  let pool := if useLargePool score rPool then LARGE_SHAPE_INDICES
              else List.range SHAPES.length
  match jsFloorIndex pool rIdx with
  | none => none
  | some idx =>
    match SHAPES.get? idx with
    | none => none
    | some shape =>
      match jsFloorIndex (List.finRange 5) rColor with
      | none => none
      | some colorIdx => some ⟨shape, colorIdx⟩

/-- The empty grid produced by `initGrid()`. -/
def emptyGrid : Grid := fun _ _ => none

/-- A completely occupied grid (used for concrete no-move evaluations). -/
def fullGrid : Grid := fun _ _ => some 0

/-- A concrete 1×1 block. -/
def oneBlock : Block := ⟨[[1]], 0⟩

/-- A concrete refill oracle that always produces the 1×1 block. -/
def oneDraws : Nat → Block := fun _ => oneBlock

/-- A concrete 3×3 block. -/
def bigBlock : Block := ⟨[[1, 1, 1], [1, 1, 1], [1, 1, 1]], 1⟩

/-- Three 3×3 blocks, none of which fits on a full grid. -/
def fullBlocks : List Block := [bigBlock, bigBlock, bigBlock]

/-- A mid-game session: row 0 occupied except its last cell, streak 2.
Placing the 1×1 block at (0, 7) completes and clears row 0. -/
def wState : GameState :=
  { grid := fun r c => if r = 0 ∧ c ≠ 7 then some 0 else none,
    currentBlocks := [oneBlock, oneBlock, oneBlock],
    score := 100, combo := 0, streak := 2, lastMoveCleared := false, gameOver := false }

/-- The state after the accepted clearing move from `wState`. -/
def wOut : GameState := ((tryPlaceBlock wState oneDraws 0 0 7).getD (false, wState)).2

/-- A session on an empty grid with an active streak; placing the 1×1 block
at (0, 0) succeeds but clears nothing. -/
def w7State : GameState :=
  { grid := emptyGrid, currentBlocks := [oneBlock, oneBlock, oneBlock],
    score := 50, combo := 1, streak := 4, lastMoveCleared := true, gameOver := false }

/-- The state after the accepted non-clearing move from `w7State`. -/
def w7Out : GameState := ((tryPlaceBlock w7State oneDraws 0 0 0).getD (false, w7State)).2

/-- A session whose grid has exactly row 0 full (used to evaluate `clearLines`). -/
def cState : GameState :=
  { grid := fun r _ => if r = 0 then some 1 else none,
    currentBlocks := [oneBlock], score := 0, combo := 0, streak := 0,
    lastMoveCleared := false, gameOver := false }

/-- A finished session (`gameOver = true`). -/
def gsOver : GameState :=
  { grid := emptyGrid, currentBlocks := [oneBlock, oneBlock, oneBlock],
    score := 7, combo := 0, streak := 0, lastMoveCleared := false, gameOver := true }

lemma foldl_clearRow (L : List (Fin 8)) (g : Grid) (i j : Fin 8) :
    (L.foldl clearRow g) i j = if i ∈ L then none else g i j := by
  induction L generalizing g with
  | nil => simp
  | cons x xs ih =>
    rw [List.foldl_cons, ih]
    by_cases h2 : i = x
    · subst h2
      simp [clearRow]
    · by_cases h1 : i ∈ xs <;> simp [clearRow, h1, h2]

lemma foldl_clearCol (L : List (Fin 8)) (g : Grid) (i j : Fin 8) :
    (L.foldl clearCol g) i j = if j ∈ L then none else g i j := by
  induction L generalizing g with
  | nil => simp
  | cons x xs ih =>
    rw [List.foldl_cons, ih]
    by_cases h2 : j = x
    · subst h2
      simp [clearCol]
    · by_cases h1 : j ∈ xs <;> simp [clearCol, h1, h2]

lemma clearLines_rows (s : GameState) :
    (clearLines s).2.rows = (List.finRange 8).filter (fun r => rowFull s.grid r) := by
  simp only [clearLines]
  split
  next h =>
    have h1 : ((List.finRange 8).filter (fun r => rowFull s.grid r)).length = 0 := by omega
    simp [List.length_eq_zero.mp h1]
  next h => rfl

lemma clearLines_cols (s : GameState) :
    (clearLines s).2.cols = (List.finRange 8).filter (fun c => colFull s.grid c) := by
  simp only [clearLines]
  split
  next h =>
    have h1 : ((List.finRange 8).filter (fun c => colFull s.grid c)).length = 0 := by omega
    simp [List.length_eq_zero.mp h1]
  next h => rfl

lemma clearLines_count (s : GameState) :
    (clearLines s).2.count = countFull s.grid := by
  simp only [clearLines, countFull]
  split
  next h =>
    simp
    omega
  next h => rfl

lemma clearLines_fst_grid (s : GameState) (i j : Fin 8) :
    ((clearLines s).1).grid i j =
      if rowFull s.grid i || colFull s.grid j then none else s.grid i j := by
  simp only [clearLines]
  split
  next h =>
    have hR : (List.finRange 8).filter (fun r => rowFull s.grid r) = [] :=
      List.length_eq_zero.mp (by omega)
    have hC : (List.finRange 8).filter (fun c => colFull s.grid c) = [] :=
      List.length_eq_zero.mp (by omega)
    have hr : rowFull s.grid i = false := by
      by_contra hcon
      have hm : i ∈ (List.finRange 8).filter (fun r => rowFull s.grid r) := by
        simp only [List.mem_filter, List.mem_finRange, true_and]
        exact Bool.not_eq_false _ |>.mp hcon
      rw [hR] at hm
      exact absurd hm (List.not_mem_nil i)
    have hc : colFull s.grid j = false := by
      by_contra hcon
      have hm : j ∈ (List.finRange 8).filter (fun c => colFull s.grid c) := by
        simp only [List.mem_filter, List.mem_finRange, true_and]
        exact Bool.not_eq_false _ |>.mp hcon
      rw [hC] at hm
      exact absurd hm (List.not_mem_nil j)
    simp [hr, hc]
  next h =>
    dsimp only
    rw [foldl_clearCol, foldl_clearRow]
    by_cases hr : rowFull s.grid i <;> by_cases hc : colFull s.grid j <;>
      simp [List.mem_filter, List.mem_finRange, hr, hc]

lemma clearLines_no_full_row (s : GameState) (i : Fin 8) :
    rowFull ((clearLines s).1.grid) i = false := by
  rw [Bool.eq_false_iff]
  intro hfull
  rw [rowFull, List.all_eq_true] at hfull
  by_cases hr : rowFull s.grid i
  · have h0 := hfull 0 (List.mem_finRange 0)
    rw [clearLines_fst_grid, hr] at h0
    simp at h0
  · rw [Bool.not_eq_true, rowFull, List.all_eq_false] at hr
    obtain ⟨c, hc, hcc⟩ := hr
    have hcell := hfull c hc
    rw [clearLines_fst_grid] at hcell
    split at hcell
    · simp at hcell
    · simp only [hcell] at hcc
      simp at hcc

lemma clearLines_no_full_col (s : GameState) (j : Fin 8) :
    colFull ((clearLines s).1.grid) j = false := by
  rw [Bool.eq_false_iff]
  intro hfull
  rw [colFull, List.all_eq_true] at hfull
  by_cases hc : colFull s.grid j
  · have h0 := hfull 0 (List.mem_finRange 0)
    rw [clearLines_fst_grid, hc] at h0
    simp at h0
  · rw [Bool.not_eq_true, colFull, List.all_eq_false] at hc
    obtain ⟨r, hr, hrr⟩ := hc
    have hcell := hfull r hr
    rw [clearLines_fst_grid] at hcell
    split at hcell
    · simp at hcell
    · simp only [hcell] at hrr
      simp at hrr

lemma clearLines_fst_currentBlocks (s : GameState) :
    ((clearLines s).1).currentBlocks = s.currentBlocks := by
  simp only [clearLines]
  split <;> rfl

lemma clearLines_fst_gameOver (s : GameState) :
    ((clearLines s).1).gameOver = s.gameOver := by
  simp only [clearLines]
  split <;> rfl

lemma clearLines_fst_of_zero (s : GameState) (h : countFull s.grid = 0) :
    (clearLines s).1 = s := by
  rw [countFull] at h
  simp only [clearLines]
  rw [if_pos (by omega)]

lemma clearLines_fst_of_pos (s : GameState) (h : 0 < countFull s.grid) :
    ((clearLines s).1).score = s.score + (countFull s.grid * 10 + 2 ^ countFull s.grid +
        (if 0 < s.streak then s.streak * 20 else 0)) ∧
      ((clearLines s).1).streak = s.streak + 1 ∧
      ((clearLines s).1).combo = countFull s.grid := by
  rw [countFull] at h
  simp only [clearLines]
  rw [if_neg (by omega)]
  refine ⟨?_, ?_, ?_⟩ <;> simp [countFull]

lemma afterClear_grid (s1 : GameState) :
    (afterClear s1).grid = ((clearLines s1).1).grid := by
  rw [afterClear]
  split
  · rfl
  · rfl

lemma afterClear_currentBlocks (s1 : GameState) :
    (afterClear s1).currentBlocks = s1.currentBlocks := by
  rw [afterClear]
  split <;> simp [noClearThisMove, clearLines_fst_currentBlocks]

lemma afterClear_gameOver (s1 : GameState) :
    (afterClear s1).gameOver = s1.gameOver := by
  rw [afterClear]
  split <;> simp [noClearThisMove, clearLines_fst_gameOver]

lemma afterClear_of_pos (s1 : GameState) (h : 0 < countFull s1.grid) :
    afterClear s1 = (clearLines s1).1 := by
  rw [afterClear, if_neg]
  rw [clearLines_count]
  omega

lemma afterClear_of_zero (s1 : GameState) (h : countFull s1.grid = 0) :
    afterClear s1 = noClearThisMove s1 := by
  rw [afterClear, if_pos]
  · rw [clearLines_fst_of_zero s1 h]
  · rw [clearLines_count]
    exact h

lemma tryPlaceBlock_accepted {s : GameState} {draws : Nat → Block} {i row col : Int}
    {s' : GameState} (h : tryPlaceBlock s draws i row col = some (true, s')) :
    s.gameOver = false ∧ 0 ≤ i ∧ i < (s.currentBlocks.length : Int) ∧
    ∃ blk, s.currentBlocks.get? i.toNat = some blk ∧
      canPlace blk.shape row col s.grid = some true ∧
      ∃ canAny : Bool,
        canPlaceAny (refillBlocks (afterClear (postPlaceState s blk row col)).currentBlocks
            i.toNat draws) (afterClear (postPlaceState s blk row col)).grid = some canAny ∧
        s'.grid = (afterClear (postPlaceState s blk row col)).grid ∧
        s'.score = (afterClear (postPlaceState s blk row col)).score ∧
        s'.combo = (afterClear (postPlaceState s blk row col)).combo ∧
        s'.streak = (afterClear (postPlaceState s blk row col)).streak ∧
        s'.currentBlocks =
          refillBlocks (afterClear (postPlaceState s blk row col)).currentBlocks
            i.toNat draws ∧
        s'.gameOver =
          (if canAny then (afterClear (postPlaceState s blk row col)).gameOver
           else true) := by
  rw [tryPlaceBlock] at h
  split at h
  · simp at h
  next hguard =>
    push_neg at hguard
    obtain ⟨hgo, hi0, hilen⟩ := hguard
    refine ⟨by simpa using hgo, by omega, by omega, ?_⟩
    split at h
    · simp at h
    next blk hget =>
      refine ⟨blk, hget, ?_⟩
      split at h
      · simp at h
      · simp at h
      next hcp =>
        refine ⟨hcp, ?_⟩
        split at h
        · simp at h
        next canAny hcpa =>
          rw [Option.some.injEq, Prod.mk.injEq] at h
          refine ⟨canAny, hcpa, ?_, ?_, ?_, ?_, ?_, ?_⟩ <;> rw [← h.2]

lemma tryPlaceBlock_rejected (s : GameState) (draws : Nat → Block) (i row col : Int)
    (h : s.gameOver = true ∨ i < 0 ∨ (s.currentBlocks.length : Int) ≤ i ∨
      ∃ blk, s.currentBlocks.get? i.toNat = some blk ∧
        canPlace blk.shape row col s.grid = some false) :
    tryPlaceBlock s draws i row col = some (false, s) := by
  rw [tryPlaceBlock]
  by_cases hguard : s.gameOver = true ∨ i < 0 ∨ (s.currentBlocks.length : Int) ≤ i
  · rw [if_pos hguard]
  · rw [if_neg hguard]
    rcases h with h | h | h | ⟨blk, hget, hcp⟩
    · exact absurd (Or.inl h) hguard
    · exact absurd (Or.inr (Or.inl h)) hguard
    · exact absurd (Or.inr (Or.inr h)) hguard
    · simp only [hget, hcp]

lemma mem_shapePairs (shape : Shape) (p : Nat × Nat) :
    p ∈ shapePairs shape ↔ p.1 < shapeH shape ∧ p.2 < shapeW shape := by
  cases p with
  | mk r c =>
    simp only [shapePairs, List.mem_flatMap, List.mem_map, List.mem_range]
    constructor
    · rintro ⟨a, ha, b, hb, hab⟩
      cases hab
      exact ⟨ha, hb⟩
    · rintro ⟨h1, h2⟩
      exact ⟨r, h1, c, h2, rfl⟩

lemma mem_anchorList (H W : Nat) (p : Nat × Nat) :
    p ∈ anchorList H W ↔ p.1 + H ≤ 8 ∧ p.2 + W ≤ 8 := by
  cases p with
  | mk r c =>
    simp only [anchorList, List.mem_flatMap, List.mem_map, List.mem_range]
    constructor
    · rintro ⟨a, ha, b, hb, hab⟩
      cases hab
      constructor <;> omega
    · rintro ⟨h1, h2⟩
      exact ⟨r, by omega, c, by omega, rfl⟩

lemma canPlaceAux_eq_all (shape : Shape) (row col : Int) (g : Grid)
    (pairs : List (Nat × Nat))
    (h : ∀ p ∈ pairs, shapeCell shape p.1 p.2 = true → (jsRow g (row + p.1)).isSome = true) :
    canPlaceAux shape row col g pairs =
      some (pairs.all fun p =>
        !(shapeCell shape p.1 p.2 && occupiedAt g (row + p.1) (col + p.2))) := by
  induction pairs with
  | nil => rfl
  | cons p rest ih =>
    have hrest := ih (fun q hq hsc => h q (List.mem_cons_of_mem p hq) hsc)
    rw [canPlaceAux, List.all_cons]
    by_cases hsc : shapeCell shape p.1 p.2
    · rw [if_pos hsc]
      have hrow := h p (List.mem_cons_self p rest) hsc
      obtain ⟨gr, hgr⟩ := Option.isSome_iff_exists.mp hrow
      cases hcell : jsCell gr (col + p.2) with
      | none =>
        have hocc : occupiedAt g (row + p.1) (col + p.2) = false := by
          simp only [occupiedAt, hgr, hcell]
        simp only [hgr, hcell, hrest, hocc, hsc]
        simp
      | some cell =>
        have hocc : occupiedAt g (row + p.1) (col + p.2) = cell.isSome := by
          simp only [occupiedAt, hgr, hcell]
        cases hs : cell.isSome with
        | true =>
          simp only [hgr, hcell, hs, hocc, hsc]
          simp
        | false =>
          simp only [hgr, hcell, hs, hocc, hsc, hrest]
          simp
    · rw [if_neg hsc]
      rw [hrest]
      simp [hsc]

lemma canPlace_eq_of_nonneg (shape : Shape) (hne : shape ≠ []) (row : Nat) (col : Int)
    (g : Grid) :
    canPlace shape row col g =
      some (decide ((row : Int) + (shapeH shape : Int) ≤ 8 ∧
        col + (shapeW shape : Int) ≤ 8 ∧
        ∀ r < shapeH shape, ∀ c < shapeW shape, shapeCell shape r c = true →
          occupiedAt g ((row : Int) + r) (col + c) = false)) := by
  obtain ⟨r0, tl, rfl⟩ := List.exists_cons_of_ne_nil hne
  rw [canPlace]
  simp only [List.head?_cons]
  by_cases hb : (row : Int) + (shapeH (r0 :: tl) : Int) ≤ 8 ∧
      col + (shapeW (r0 :: tl) : Int) ≤ 8
  · rw [if_neg (by
      have hb1 : (row : Int) + ((r0 :: tl).length : Int) ≤ 8 := hb.1
      have hb2 : col + (r0.length : Int) ≤ 8 := hb.2
      omega)]
    rw [canPlaceAux_eq_all (r0 :: tl) row col g (shapePairs (r0 :: tl))
      (fun p hp hsc => by
        have hlt := (mem_shapePairs (r0 :: tl) p).mp hp
        have hb1 : (row : Int) + ((r0 :: tl).length : Int) ≤ 8 := hb.1
        have h1 : p.1 < (r0 :: tl).length := hlt.1
        rw [jsRow, dif_pos (by constructor <;> omega)]
        rfl)]
    congr 1
    rw [Bool.eq_iff_iff, List.all_eq_true, decide_eq_true_eq]
    constructor
    · intro hall
      refine ⟨hb.1, hb.2, ?_⟩
      intro r hr c hc hsc
      have hcase := hall (r, c) ((mem_shapePairs (r0 :: tl) (r, c)).mpr ⟨hr, hc⟩)
      simpa [hsc] using hcase
    · rintro ⟨-, -, hP⟩ p hp
      obtain ⟨h1, h2⟩ := (mem_shapePairs (r0 :: tl) p).mp hp
      by_cases hsc : shapeCell (r0 :: tl) p.1 p.2
      · simp [hsc, hP p.1 h1 p.2 h2 hsc]
      · simp [hsc]
  · rw [if_pos (by
      have hb1 : ¬((row : Int) + ((r0 :: tl).length : Int) ≤ 8 ∧
          col + (r0.length : Int) ≤ 8) := hb
      omega)]
    have : ¬((row : Int) + (shapeH (r0 :: tl) : Int) ≤ 8 ∧
        col + (shapeW (r0 :: tl) : Int) ≤ 8 ∧
        ∀ r < shapeH (r0 :: tl), ∀ c < shapeW (r0 :: tl), shapeCell (r0 :: tl) r c = true →
          occupiedAt g ((row : Int) + r) (col + c) = false) := by
      intro hcon
      exact hb ⟨hcon.1, hcon.2.1⟩
    rw [decide_eq_false this]

lemma tryAnchors_eq (shape : Shape) (g : Grid) (anchors : List (Nat × Nat))
    (h : ∀ a ∈ anchors, canPlace shape a.1 a.2 g ≠ none) :
    tryAnchors shape g anchors =
      some (anchors.any fun a => decide (canPlace shape a.1 a.2 g = some true)) := by
  induction anchors with
  | nil => rfl
  | cons a rest ih =>
    rw [tryAnchors, List.any_cons]
    cases hc : canPlace shape (a.1 : Int) (a.2 : Int) g with
    | none => exact absurd hc (h a (List.mem_cons_self a rest))
    | some b =>
      cases b with
      | true => simp [hc]
      | false =>
        rw [ih (fun q hq => h q (List.mem_cons_of_mem a hq))]
        simp [hc]

lemma canPlaceAny_eq (g : Grid) (blocks : List Block)
    (h : ∀ b ∈ blocks, b.shape ≠ []) :
    canPlaceAny blocks g =
      some (blocks.any fun b =>
        (anchorList (shapeH b.shape) (shapeW b.shape)).any fun a =>
          decide (canPlace b.shape a.1 a.2 g = some true)) := by
  induction blocks with
  | nil => rfl
  | cons b rest ih =>
    rw [canPlaceAny, List.any_cons]
    have hbs := h b (List.mem_cons_self b rest)
    obtain ⟨r0, tl, hb⟩ := List.exists_cons_of_ne_nil hbs
    have hhead : b.shape.head? = some r0 := by rw [hb]; rfl
    have hW : shapeW b.shape = r0.length := by rw [shapeW, hhead]; rfl
    have hH : shapeH b.shape = b.shape.length := rfl
    simp only [hhead]
    have hnothrow : ∀ a ∈ anchorList b.shape.length r0.length,
        canPlace b.shape a.1 a.2 g ≠ none := by
      intro a ha
      rw [canPlace_eq_of_nonneg b.shape hbs]
      exact Option.some_ne_none _
    rw [tryAnchors_eq b.shape g _ hnothrow]
    rw [ih (fun q hq => h q (List.mem_cons_of_mem b hq))]
    rw [← hH, ← hW]
    cases hAny : (anchorList (shapeH b.shape) (shapeW b.shape)).any
        (fun a => decide (canPlace b.shape a.1 a.2 g = some true)) with
    | true => simp
    | false => simp

/-- C4: for every block index and integer pair (row, col), when the state is
game-over, or the index does not reference a block of the current set, or
`canPlace` returns false for that block at (row, col), `tryPlaceBlock`
returns the failure result `false`, leaves the whole session state
unchanged, and does not throw (the result is `some`, never `none`). -/
theorem rejectionNoStateChange (s : GameState) (draws : Nat → Block) (i row col : Int)
    (h : s.gameOver = true ∨ i < 0 ∨ (s.currentBlocks.length : Int) ≤ i ∨
      ∃ blk, s.currentBlocks.get? i.toNat = some blk ∧
        canPlace blk.shape row col s.grid = some false) :
    tryPlaceBlock s draws i row col = some (false, s) :=
  tryPlaceBlock_rejected s draws i row col h

/-- C4 witness: a concrete placement attempt on a finished session is
rejected with the state returned unchanged. -/
theorem rejectionNoStateChange_witness :
    gsOver.gameOver = true ∧
    tryPlaceBlock gsOver oneDraws 0 0 0 = some (false, gsOver) :=
  ⟨rfl, rejectionNoStateChange gsOver oneDraws 0 0 0 (Or.inl rfl)⟩

/-- C6: after every accepted placement from a 3-block set, the refilled
current block set again holds exactly 3 blocks (the placed one is removed
at its index and fresh blocks are pushed until the set holds 3). -/
theorem refillInvariant (s : GameState) (draws : Nat → Block) (i row col : Int)
    (s' : GameState) (h3 : s.currentBlocks.length = 3)
    (hacc : tryPlaceBlock s draws i row col = some (true, s')) :
    s'.currentBlocks.length = 3 := by
  obtain ⟨hgo, hi0, hlen, blk, hget, hcp, canAny, hcpa, hgrid, hscore, hcombo, hstreak,
    hblocks, hgover⟩ := tryPlaceBlock_accepted hacc
  rw [hblocks]
  have hb : (afterClear (postPlaceState s blk row col)).currentBlocks = s.currentBlocks :=
    afterClear_currentBlocks _
  simp only [refillBlocks, hb]
  have hi : i.toNat < s.currentBlocks.length := by omega
  rw [List.length_append, List.length_map, List.length_range]
  have := List.length_eraseIdx_add_one hi
  omega

/-- C6 witness: the concrete accepted move from `wState` leaves 3 blocks. -/
theorem refillInvariant_witness :
    wState.currentBlocks.length = 3 ∧
    tryPlaceBlock wState oneDraws 0 0 7 = some (true, wOut) ∧
    wOut.currentBlocks.length = 3 :=
  ⟨rfl, rfl, refillInvariant wState oneDraws 0 0 7 wOut rfl rfl⟩

/-- C7: every accepted placement that clears zero lines resets both the
combo and the streak to 0, whatever the streak was before the move. -/
theorem streakComboReset (s : GameState) (draws : Nat → Block) (i row col : Int)
    (blk : Block) (s' : GameState)
    (hblk : s.currentBlocks.get? i.toNat = some blk)
    (hacc : tryPlaceBlock s draws i row col = some (true, s'))
    (h0 : countFull (placeBlock blk.shape blk.color row col s.grid) = 0) :
    s'.combo = 0 ∧ s'.streak = 0 := by
  obtain ⟨hgo, hi0, hlen, blk', hget', hcp, canAny, hcpa, hgrid, hscore, hcombo, hstreak,
    hblocks, hgover⟩ := tryPlaceBlock_accepted hacc
  have hbe : blk = blk' := by
    rw [hblk] at hget'
    exact Option.some.inj hget'
  subst hbe
  have h0' : countFull (postPlaceState s blk row col).grid = 0 := h0
  rw [afterClear_of_zero _ h0'] at hcombo hstreak
  exact ⟨hcombo.trans rfl, hstreak.trans rfl⟩

/-- C7 witness: the concrete accepted non-clearing move from `w7State`
(entering with streak 4) leaves combo 0 and streak 0. -/
theorem streakComboReset_witness :
    w7State.currentBlocks.get? (Int.toNat 0) = some oneBlock ∧
    tryPlaceBlock w7State oneDraws 0 0 0 = some (true, w7Out) ∧
    countFull (placeBlock oneBlock.shape oneBlock.color 0 0 w7State.grid) = 0 ∧
    (w7Out.combo = 0 ∧ w7Out.streak = 0) :=
  ⟨rfl, rfl, by decide,
    streakComboReset w7State oneDraws 0 0 0 oneBlock w7Out rfl rfl (by decide)⟩

/-- C10: after every accepted `tryPlaceBlock` call, the resulting grid has
no fully occupied row and no fully occupied column (every line completed
by the placement is cleared within the same move). -/
theorem noFullLinesAfterMove (s : GameState) (draws : Nat → Block) (i row col : Int)
    (s' : GameState) (hacc : tryPlaceBlock s draws i row col = some (true, s')) :
    (∀ r : Fin 8, rowFull s'.grid r = false) ∧
      (∀ c : Fin 8, colFull s'.grid c = false) := by
  obtain ⟨hgo, hi0, hlen, blk, hget, hcp, canAny, hcpa, hgrid, hscore, hcombo, hstreak,
    hblocks, hgover⟩ := tryPlaceBlock_accepted hacc
  rw [hgrid, afterClear_grid]
  exact ⟨fun r => clearLines_no_full_row _ r, fun c => clearLines_no_full_col _ c⟩

/-- C10 witness: after the concrete accepted clearing move from `wState`,
row 0 and column 7 of the resulting grid are not full. -/
theorem noFullLinesAfterMove_witness :
    tryPlaceBlock wState oneDraws 0 0 7 = some (true, wOut) ∧
    rowFull wOut.grid 0 = false ∧ colFull wOut.grid 7 = false :=
  ⟨rfl, (noFullLinesAfterMove wState oneDraws 0 0 7 wOut rfl).1 0,
    (noFullLinesAfterMove wState oneDraws 0 0 7 wOut rfl).2 7⟩

/-- C1: a move accepted by `tryPlaceBlock` that completes `count ≥ 1` full
lines changes the score by exactly
`5 + count*10 + 2^count + (streak > 0 ? streak*20 : 0)`, where `streak` is
the streak value from before the move; the streak is incremented (to
`streak + 1`) only after that bonus is computed, and the combo becomes
`count`. -/
theorem scoringDeterminism (s : GameState) (draws : Nat → Block) (i row col : Int)
    (blk : Block) (s' : GameState)
    (hblk : s.currentBlocks.get? i.toNat = some blk)
    (hacc : tryPlaceBlock s draws i row col = some (true, s'))
    (hclear : 1 ≤ countFull (placeBlock blk.shape blk.color row col s.grid)) :
    s'.score = s.score + (5 + countFull (placeBlock blk.shape blk.color row col s.grid) * 10 +
        2 ^ countFull (placeBlock blk.shape blk.color row col s.grid) +
        (if 0 < s.streak then s.streak * 20 else 0)) ∧
      s'.streak = s.streak + 1 ∧
      s'.combo = countFull (placeBlock blk.shape blk.color row col s.grid) := by
  obtain ⟨hgo, hi0, hlen, blk', hget', hcp, canAny, hcpa, hgrid, hscore, hcombo, hstreak,
    hblocks, hgover⟩ := tryPlaceBlock_accepted hacc
  have hbe : blk = blk' := by
    rw [hblk] at hget'
    exact Option.some.inj hget'
  subst hbe
  have hpos : 0 < countFull (postPlaceState s blk row col).grid := hclear
  rw [afterClear_of_pos _ hpos] at hscore hstreak hcombo
  obtain ⟨hsc, hst, hcb⟩ := clearLines_fst_of_pos (postPlaceState s blk row col) hpos
  rw [hsc] at hscore
  rw [hst] at hstreak
  rw [hcb] at hcombo
  have hPs : (postPlaceState s blk row col).score = s.score + 5 := rfl
  have hPk : (postPlaceState s blk row col).streak = s.streak := rfl
  have hPg : countFull (postPlaceState s blk row col).grid =
      countFull (placeBlock blk.shape blk.color row col s.grid) := rfl
  rw [hPs, hPk, hPg] at hscore
  rw [hPk] at hstreak
  rw [hPg] at hcombo
  exact ⟨by rw [hscore]; ring, hstreak, hcombo⟩

/-- C1 witness: the concrete accepted move from `wState` (streak 2) clears
one line and scores 5 + 10 + 2 + 40 on top of the previous score. -/
theorem scoringDeterminism_witness :
    wState.currentBlocks.get? (Int.toNat 0) = some oneBlock ∧
    tryPlaceBlock wState oneDraws 0 0 7 = some (true, wOut) ∧
    1 ≤ countFull (placeBlock oneBlock.shape oneBlock.color 0 7 wState.grid) ∧
    (wOut.score = wState.score +
        (5 + countFull (placeBlock oneBlock.shape oneBlock.color 0 7 wState.grid) * 10 +
          2 ^ countFull (placeBlock oneBlock.shape oneBlock.color 0 7 wState.grid) +
          (if 0 < wState.streak then wState.streak * 20 else 0)) ∧
      wOut.streak = wState.streak + 1 ∧
      wOut.combo = countFull (placeBlock oneBlock.shape oneBlock.color 0 7 wState.grid)) :=
  ⟨rfl, rfl, by decide,
    scoringDeterminism wState oneDraws 0 0 7 oneBlock wOut rfl rfl (by decide)⟩

/-- C2: in `clearLines`, a row (or column) is cleared iff all 8 of its
cells were occupied immediately before the clear step — the returned
`rows`/`cols` are detected on the pre-clear grid, before any cell is
cleared — and afterwards every cell of every cleared row and column is
empty, including cells at the intersection of a cleared row and a cleared
column. -/
theorem clearCorrectness (s : GameState) :
    (∀ r : Fin 8, r ∈ (clearLines s).2.rows ↔ rowFull s.grid r = true) ∧
    (∀ c : Fin 8, c ∈ (clearLines s).2.cols ↔ colFull s.grid c = true) ∧
    (∀ r ∈ (clearLines s).2.rows, ∀ c : Fin 8, ((clearLines s).1).grid r c = none) ∧
    (∀ c ∈ (clearLines s).2.cols, ∀ r : Fin 8, ((clearLines s).1).grid r c = none) := by
  refine ⟨?_, ?_, ?_, ?_⟩
  · intro r
    rw [clearLines_rows, List.mem_filter]
    simp [List.mem_finRange]
  · intro c
    rw [clearLines_cols, List.mem_filter]
    simp [List.mem_finRange]
  · intro r hr c
    rw [clearLines_rows, List.mem_filter] at hr
    rw [clearLines_fst_grid]
    simp [hr.2]
  · intro c hc r
    rw [clearLines_cols, List.mem_filter] at hc
    rw [clearLines_fst_grid]
    simp [hc.2]

/-- C2 witness: on a grid whose row 0 is full, `clearLines` reports row 0
as cleared and empties its cells. -/
theorem clearCorrectness_witness :
    ((0 : Fin 8) ∈ (clearLines cState).2.rows ↔ rowFull cState.grid 0 = true) ∧
    ((clearLines cState).1).grid 0 3 = none :=
  ⟨(clearCorrectness cState).1 0, (clearCorrectness cState).2.2.1 0 (by decide) 3⟩

/-- C5: `canPlaceAny` returns false exactly when no (block, row, col)
triple with the block in the given set and `0 ≤ row ≤ 8−H`,
`0 ≤ col ≤ 8−W` satisfies `canPlace`; and after every accepted move the
stored state is game-over iff `canPlaceAny` is false on the refilled block
set and the post-clear grid. -/
theorem gameOverCorrectness :
    (∀ (blocks : List Block) (g : Grid), (∀ b ∈ blocks, b.shape ∈ SHAPES) →
      (canPlaceAny blocks g = some false ↔
        ¬ ∃ b ∈ blocks, ∃ r c : Nat, r + shapeH b.shape ≤ 8 ∧ c + shapeW b.shape ≤ 8 ∧
          canPlace b.shape r c g = some true)) ∧
    (∀ (s : GameState) (draws : Nat → Block) (i row col : Int) (s' : GameState),
      tryPlaceBlock s draws i row col = some (true, s') →
      canPlaceAny s'.currentBlocks s'.grid = some (!s'.gameOver)) := by
  constructor
  · intro blocks g hsh
    have hall : ∀ sh ∈ SHAPES, sh ≠ ([] : Shape) := by decide
    have hne : ∀ b ∈ blocks, b.shape ≠ [] := fun b hb => hall b.shape (hsh b hb)
    rw [canPlaceAny_eq g blocks hne, Option.some.injEq, Bool.eq_false_iff, Ne,
      List.any_eq_true]
    apply not_congr
    constructor
    · rintro ⟨b, hb, hany⟩
      rw [List.any_eq_true] at hany
      obtain ⟨a, ha, hcp⟩ := hany
      have hm := (mem_anchorList _ _ a).mp ha
      exact ⟨b, hb, a.1, a.2, hm.1, hm.2, of_decide_eq_true hcp⟩
    · rintro ⟨b, hb, r, c, hr, hc, hcp⟩
      refine ⟨b, hb, ?_⟩
      rw [List.any_eq_true]
      exact ⟨(r, c), (mem_anchorList _ _ (r, c)).mpr ⟨hr, hc⟩, by simp [hcp]⟩
  · intro s draws i row col s' hacc
    obtain ⟨hgo, hi0, hlen, blk, hget, hcp, canAny, hcpa, hgrid, hscore, hcombo, hstreak,
      hblocks, hgover⟩ := tryPlaceBlock_accepted hacc
    rw [hblocks, hgrid, hcpa, hgover, afterClear_gameOver]
    have hpp : (postPlaceState s blk row col).gameOver = s.gameOver := rfl
    rw [hpp, hgo]
    cases canAny <;> simp

/-- C5 witness: three 3×3 blocks fit nowhere on a full grid (and the
characterization instantiates there), and after the concrete accepted move
from `wState` the game-over flag agrees with `canPlaceAny`. -/
theorem gameOverCorrectness_witness :
    (∀ b ∈ fullBlocks, b.shape ∈ SHAPES) ∧
    (canPlaceAny fullBlocks fullGrid = some false ↔
      ¬ ∃ b ∈ fullBlocks, ∃ r c : Nat, r + shapeH b.shape ≤ 8 ∧ c + shapeW b.shape ≤ 8 ∧
        canPlace b.shape r c fullGrid = some true) ∧
    tryPlaceBlock wState oneDraws 0 0 7 = some (true, wOut) ∧
    canPlaceAny wOut.currentBlocks wOut.grid = some (!wOut.gameOver) :=
  ⟨by decide, gameOverCorrectness.1 fullBlocks fullGrid (by decide), rfl,
    gameOverCorrectness.2 wState oneDraws 0 0 7 wOut rfl⟩

/-- C3 counterexample: the claim quantifies over every integer pair
(row, col) and asserts `canPlace` returns true whenever neither the bounds
condition nor an overlap holds; but at `row = -1`, `col = 0` on the empty
grid with the catalog 1×1 shape, neither return condition holds and yet
`canPlace` returns no boolean at all — it throws a `TypeError` (reading
`state.grid[-1][0]`), modelled as `none`. -/
theorem canPlace_negative_row_throws :
    ([[1]] : Shape) ∈ SHAPES ∧
    ¬(8 < (-1 : Int) + ((shapeH [[1]] : Nat) : Int) ∨
      8 < (0 : Int) + ((shapeW [[1]] : Nat) : Int)) ∧
    canPlace [[1]] (-1) 0 emptyGrid = none ∧
    canPlace [[1]] (-1) 0 emptyGrid ≠ some true ∧
    canPlace [[1]] (-1) 0 emptyGrid ≠ some false := by decide

/-- C3 (amended): for every catalog shape, every nonnegative integer `row`
and EVERY integer `col`, `canPlace` returns false iff `row + H > 8` or
`col + W > 8` or some occupied cell of the shape maps to a non-empty grid
cell, and true in all other cases; as a pure function of the grid it
mutates nothing.  (An out-of-range *column* read is `undefined`, which is
falsy, so a negative `col` never throws and yields exactly the claimed
boolean.  Only a negative `row` is excluded: there the source throws a
`TypeError` instead of returning — see the counterexample.) -/
theorem canPlace_spec_nonneg (shape : Shape) (hs : shape ∈ SHAPES) (row : Nat)
    (col : Int) (g : Grid) :
    canPlace shape row col g =
      some (decide ((row : Int) + (shapeH shape : Int) ≤ 8 ∧
        col + (shapeW shape : Int) ≤ 8 ∧
        ∀ r < shapeH shape, ∀ c < shapeW shape, shapeCell shape r c = true →
          occupiedAt g ((row : Int) + r) (col + c) = false)) := by
  have hall : ∀ sh ∈ SHAPES, sh ≠ ([] : Shape) := by decide
  exact canPlace_eq_of_nonneg shape (hall shape hs) row col g

/-- C3 witness: the 1×2 catalog shape at row 0, column −1 on the empty
grid — a negative column, where `canPlace` still returns the claimed
boolean (true: the one cell it covers inside the grid is empty). -/
theorem canPlace_spec_nonneg_witness :
    (([[1, 1]] : Shape) ∈ SHAPES) ∧
    canPlace [[1, 1]] ((0 : Nat) : Int) (-1) emptyGrid =
      some (decide (((0 : Nat) : Int) + (shapeH [[1, 1]] : Int) ≤ 8 ∧
        (-1 : Int) + (shapeW [[1, 1]] : Int) ≤ 8 ∧
        ∀ r < shapeH ([[1, 1]] : Shape), ∀ c < shapeW ([[1, 1]] : Shape),
          shapeCell [[1, 1]] r c = true →
          occupiedAt emptyGrid (((0 : Nat) : Int) + r) ((-1 : Int) + c) = false)) ∧
    canPlace [[1, 1]] ((0 : Nat) : Int) (-1) emptyGrid = some true :=
  ⟨by decide, canPlace_spec_nonneg [[1, 1]] (by decide) 0 (-1) emptyGrid, by decide⟩

/-- C8 counterexample: the designated large subset does not consist of
every catalog shape with 4 or more occupied cells — the 2×2 shape at
catalog index 3 has exactly 4 occupied cells yet its index is missing from
`LARGE_SHAPE_INDICES`. -/
theorem largeSubset_misses_square :
    cellCount ((SHAPES.get? 3).getD []) = 4 ∧ 3 ∉ LARGE_SHAPE_INDICES := by decide

/-- C8 (amended): the catalog holds exactly 23 shapes and the large subset
exactly 13 indices, each a valid catalog index whose shape has 4 or more
occupied cells; but the subset is proper — it omits the 4-cell 2×2 shape
at index 3, so it does not contain every 4-or-more-cell shape. -/
theorem shapeCatalogCounts :
    SHAPES.length = 23 ∧ LARGE_SHAPE_INDICES.length = 13 ∧
    (LARGE_SHAPE_INDICES.all fun i =>
      decide (4 ≤ cellCount ((SHAPES.get? i).getD [])) && decide (i < SHAPES.length)) = true ∧
    cellCount ((SHAPES.get? 3).getD []) = 4 ∧ 3 ∉ LARGE_SHAPE_INDICES := by decide

lemma jsFloorIndex_eq {α : Type} (l : List α) (r : ℚ) (n : Nat) (hn : n < l.length)
    (hf : (r * (l.length : ℚ)).floor = (n : Int)) :
    jsFloorIndex l r = some (l.get ⟨n, hn⟩) := by
  rw [jsFloorIndex]
  simp only [hf]
  rw [dif_pos ⟨Int.natCast_nonneg n, by exact_mod_cast hn⟩]
  simp

/-- C9 counterexample: at score 249 `randomShape` can still return a large
shape — with the shape-index draw `6/23` it yields the 1×4 shape, which is
catalog entry 6, an entry of `LARGE_SHAPE_INDICES` with 4 occupied cells
(the large *pool* is skipped below score 250, but the full catalog that is
sampled instead still contains the large shapes). -/
theorem randomShape_large_at_249 :
    randomShape 249 0 (6 / 23) 0 = some ⟨[[1, 1, 1, 1]], 0⟩ ∧
    (SHAPES.get? 6).getD [] = [[1, 1, 1, 1]] ∧
    6 ∈ LARGE_SHAPE_INDICES ∧ 4 ≤ cellCount [[1, 1, 1, 1]] := by
  refine ⟨?_, by decide, by decide, by decide⟩
  have hpool : useLargePool 249 0 = false := by
    have h0 : largeChance 249 = 0 := by norm_num [largeChance, level]
    simp [useLargePool, h0]
  have hlen : (List.range SHAPES.length).length = SHAPES.length := List.length_range _
  have hS : SHAPES.length = 23 := rfl
  have h6 : jsFloorIndex (List.range SHAPES.length) (6 / 23) = some 6 := by
    have hn : 6 < (List.range SHAPES.length).length := by
      rw [hlen, hS]
      omega
    have hf : ((6 / 23 : ℚ) * ((List.range SHAPES.length).length : ℚ)).floor
        = ((6 : ℕ) : ℤ) := by
      rw [hlen, hS]
      have h : ((6 : ℚ) / 23 * ((23 : ℕ) : ℚ)) = 6 := by norm_num
      rw [h, Rat.floor_def']
      norm_num
    rw [jsFloorIndex_eq (List.range SHAPES.length) (6 / 23) 6 hn hf]
    simp [List.getElem_range]
  have hc : jsFloorIndex (List.finRange 5) (0 : ℚ) = some 0 := by
    have hn : 0 < (List.finRange 5).length := by
      rw [List.length_finRange]
      omega
    have hf : ((0 : ℚ) * ((List.finRange 5).length : ℚ)).floor = ((0 : ℕ) : ℤ) := by
      have h : ((0 : ℚ) * ((List.finRange 5).length : ℚ)) = 0 := by norm_num
      rw [h, Rat.floor_def']
      norm_num
    rw [jsFloorIndex_eq (List.finRange 5) 0 0 hn hf]
    simp [List.get_finRange]
  rw [randomShape]
  simp only [hpool, Bool.false_eq_true, if_false, h6, hc]
  rfl

/-- C9 (amended): in `randomShape` the large-pool selection is governed by
`level = floor(score/250)` and `largeChance = level * 0.08`: `largeChance`
is 0 at score 249 and 2/25 = 0.08 at score 250, and the large pool is
never drawn from at score 249 (for any random input), while at score 250
it is used exactly when the uniform draw is below 0.08.  The full-catalog
pool used otherwise can still produce a large shape. -/
theorem difficultyScalingBoundary :
    largeChance 249 = 0 ∧ largeChance 250 = 2 / 25 ∧
    (∀ r : ℚ, useLargePool 249 r = false) ∧
    (∀ r : ℚ, useLargePool 250 r = decide (r < 2 / 25)) := by
  have h249 : largeChance 249 = 0 := by norm_num [largeChance, level]
  have h250 : largeChance 250 = 2 / 25 := by norm_num [largeChance, level]
  refine ⟨h249, h250, ?_, ?_⟩
  · intro r
    simp [useLargePool, h249]
  · intro r
    simp [useLargePool, h250]
